import Mathlib

set_option maxRecDepth 2000

/-!
Verification of the feature-sync reconciliation workflow of the
claude-worktree-agent MCP server against its design specification.

The definitions below are a shallow embedding of the sync orchestrator in
`src/tools/feature-sync.ts` (the implementation wired into the MCP server by
`src/index.ts`), of its conflict-report builder `generateConflictReport`, of
its conflict-analysis builder `generateConflictAnalysis`, and of the path
derivation it performs with the Node `path.join` function.  External collaborators
(simple-git, execa, the filesystem, the clock) are modelled as an oracle
record describing the outcome of each call; the orchestrator itself is a
deterministic interpreter over that oracle which records the calls it makes
as a trace.
-/

/-! ## Character-list utilities (JavaScript string primitives) -/

/-- Split a character list at every occurrence of `sep`, keeping empty
segments, exactly like JavaScript `split` with a one-character separator. -/
def splitOnChar (sep : Char) : List Char → List (List Char)
  | [] => [[]]
  | c :: cs =>
    if c = sep then [] :: splitOnChar sep cs
    else
      match splitOnChar sep cs with
      | [] => [[c]]
      | s :: rest => (c :: s) :: rest

/-- True when `pat` is a leading segment of `l`. -/
def isPre : List Char → List Char → Bool
  | [], _ => true
  | _ :: _, [] => false
  | a :: as, b :: bs => a = b && isPre as bs

/-- Join character-list segments with `/` between them. -/
def joinSegs : List (List Char) → List Char
  | [] => []
  | [s] => s
  | s :: ss => s ++ '/' :: joinSegs ss

/-- Join a list of strings with a separator (JavaScript `Array.join`). -/
def joinSep (sep : String) : List String → String
  | [] => ""
  | [s] => s
  | s :: ss => s ++ sep ++ joinSep sep ss

/-- Concatenate a list of strings. -/
def strJoin : List String → String
  | [] => ""
  | s :: ss => s ++ strJoin ss

/-- Left-to-right scan counting matches of `pat`; `skip` characters are
still to be consumed by the most recent match, so matches never overlap. -/
def countSplitsAux (pat : List Char) : Nat → List Char → Nat
  | _, [] => 0
  | n + 1, _ :: cs => countSplitsAux pat n cs
  | 0, c :: cs =>
    if pat ≠ [] ∧ isPre pat (c :: cs) then
      countSplitsAux pat (pat.length - 1) cs + 1
    else
      countSplitsAux pat 0 cs

/-- Number of non-overlapping occurrences of `pat` in a text, scanned left
to right: the value of JavaScript `text.split(pat).length - 1`. -/
def countSplits (pat : List Char) (text : List Char) : Nat :=
  countSplitsAux pat 0 text

/-! ## Node posix `path.join` -/

/-- A path segment is plain when `path.normalize` leaves it alone. -/
def plainSeg (s : List Char) : Prop :=
  s ≠ [] ∧ s ≠ ['.'] ∧ s ≠ ['.', '.']

instance (s : List Char) : Decidable (plainSeg s) := by
  unfold plainSeg
  infer_instance

/-- Segment processing of Node `path.normalize`: empty and `.` segments are
dropped, `..` cancels the previous kept segment (at the root of an absolute
path a leading `..` is dropped; in a relative path it is kept). -/
def normAux (isAbs : Bool) : List (List Char) → List (List Char) → List (List Char)
  | acc, [] => acc.reverse
  | acc, s :: rest =>
    if s = [] ∨ s = ['.'] then normAux isAbs acc rest
    else if s = ['.', '.'] then
      match acc with
      | [] => if isAbs then normAux isAbs [] rest else normAux isAbs [['.', '.']] rest
      | t :: ts =>
        if t = ['.', '.'] then normAux isAbs (s :: acc) rest else normAux isAbs ts rest
    else normAux isAbs (s :: acc) rest

/-- True when the last character is a separator (the trailing-separator
test of Node `path.normalize`). -/
def lastIsSlash : List Char → Bool
  | [] => false
  | [c] => c = '/'
  | _ :: c :: cs => lastIsSlash (c :: cs)

/-- Node `path.normalize` on a posix path string: empty input yields `.`;
the segments are normalized; an all-cancelled path yields `/`, `./` or `.`;
a trailing separator of a non-empty result is preserved. -/
def normalizePath (s : String) : String :=
  if s.data = [] then "."
  else
    let isAbs := isPre ['/'] s.data
    let trail := lastIsSlash s.data
    let segs := normAux isAbs [] (splitOnChar '/' s.data)
    if segs = [] then
      if isAbs then "/" else if trail then "./" else "."
    else
      let body := if trail then joinSegs segs ++ ['/'] else joinSegs segs
      if isAbs then String.mk ('/' :: body) else String.mk body

/-- Node `path.join`: drop empty parts, concatenate the rest with `/`, and
normalize the result (`.` when nothing remains). -/
def pathJoin (parts : List String) : String :=
  let kept := parts.filter (fun p => p ≠ "")
  if kept = [] then "." else normalizePath (joinSep "/" kept)

/-- Model of the Node path.join of projectRoot, .worktrees and featureName
at feature-sync.ts:19. -/
def worktreePathOf (projectRoot featureName : String) : String :=
  pathJoin [projectRoot, ".worktrees", featureName]

/-- Model of the template literal deriving the branch name at
feature-sync.ts:20. -/
def branchNameOf (featureName : String) : String :=
  "feature/" ++ featureName

/-- A feature name free of path separators and dot segments, so that
`path.join` cannot rewrite it. -/
def plainName (n : String) : Prop :=
  n ≠ "" ∧ '/' ∉ n.data ∧ n ≠ "." ∧ n ≠ ".."

instance (n : String) : Decidable (plainName n) := by
  unfold plainName
  infer_instance

/-! ## Text artifacts built by feature-sync.ts

Transcribed literally from the source; `\x27` is an apostrophe, `\x22` a
double quote, `\x7b`/`\x7d` braces. -/

/-- Error thrown when the PROJECT_ROOT environment variable is unset or
empty (feature-sync.ts:16). -/
def projectRootErrMsg : String :=
  "PROJECT_ROOT environment variable not set. This is required for Cursor MCP. Add \x22env\x22: \x7b\x22PROJECT_ROOT\x22: \x22/path/to/your/project\x22\x7d to your MCP configuration."

/-- Error thrown when the derived worktree path does not exist
(feature-sync.ts:24). -/
def notFoundMsg (n wt : String) : String :=
  "Feature \x27" ++ n ++ "\x27 not found. Expected worktree at \x27" ++ wt ++ "\x27. Use feature_start to create it first."

/-- Error thrown when the worktree is not a git repository
(feature-sync.ts:34). -/
def notRepoMsg : String :=
  "Not in a git repository. Please run this command from your project root."

/-- Narrative lines accumulated before the rebase outcome is known
(feature-sync.ts:37-52). -/
def syncHeader (n : String) (c : Nat) : String :=
  "🔄 Syncing feature \x27" ++ n ++ "\x27 to main...\n"
    ++ "📥 Fetching latest main..." ++ " (" ++ toString c ++ " new commits)\n"
    ++ "🔀 Rebasing " ++ n ++ " onto main...\n"

/-- Result text of a clean rebase (feature-sync.ts:62-63). -/
def cleanSuccessText (n : String) (c a : Nat) : String :=
  syncHeader n c ++ "✅ Feature synced successfully!\n\n"
    ++ "Your branch is now " ++ toString a ++ " commits ahead of main."

/-- Narrative lines after conflicts are detected (feature-sync.ts:80-81). -/
def conflictDetectedText (n : String) (c : Nat) (files : List String) : String :=
  syncHeader n c
    ++ "⚠️  " ++ toString files.length ++ " conflicts detected in " ++ joinSep ", " files ++ "\n"
    ++ "🤖 Launching Claude Code for conflict resolution...\n"

/-- Result text when the delegate cleared every conflict
(feature-sync.ts:131-136). -/
def resolvedSuccessText (n : String) (c : Nat) (files : List String) (a : Nat) : String :=
  conflictDetectedText n c files
    ++ "✅ Claude Code resolved conflicts (main-first strategy)\n"
    ++ "✅ Feature synced successfully!\n\n"
    ++ "Your branch is now " ++ toString a ++ " commits ahead of main."

/-- Result text of the manual-intervention outcome (feature-sync.ts:156-158). -/
def manualInterventionText (n : String) (c : Nat) (files : List String) : String :=
  conflictDetectedText n c files
    ++ "🤖 Claude Code could not complete conflict resolution\n"
    ++ "📋 Conflict details saved to .worktrees/" ++ n ++ "/CONFLICTS.md\n\n"
    ++ "Next steps: Review conflicts manually, then run feature_sync again"

/-- The conflict-marker pattern counted by `generateConflictAnalysis`. -/
def hdMarker : List Char := "<<<<<<< HEAD".data

/-- One file entry of `generateConflictAnalysis` (feature-sync.ts:190-203):
the file is read (readFileSync may fail) and its conflict sections counted
by splitting on the marker. -/
def analysisEntry (readF : String → Except String String) (file : String) : String :=
  match readF file with
  | .ok content =>
    "### " ++ file ++ "\n"
      ++ "- " ++ toString (countSplits hdMarker content.data) ++ " conflict section(s) detected\n"
      ++ "- Review the <<<<<<< HEAD and >>>>>>> main markers\n"
      ++ "- HEAD contains your feature changes\n"
      ++ "- main contains the latest main branch changes\n\n"
  | .error e =>
    "### " ++ file ++ "\n" ++ "- Could not analyze file: " ++ e ++ "\n\n"

/-- Model of `generateConflictAnalysis` (feature-sync.ts:187-207). -/
def generateConflictAnalysis (readF : String → Except String String)
    (files : List String) : String :=
  "## Conflict Analysis\n\n" ++ strJoin (files.map (analysisEntry readF))

/-- Model of `generateConflictReport` (feature-sync.ts:209-232); `now` is
the `new Date().toISOString()` timestamp. -/
def generateConflictReport (now : String) (conflictedFiles : List String) : String :=
  "# Conflict Resolution Required\n\n"
    ++ ("Generated: " ++ now ++ "\n\n")
    ++ "## Conflicted Files\n\n"
    ++ strJoin (conflictedFiles.map (fun file => "- " ++ file ++ "\n"))
    ++ "\n## Resolution Steps\n\n"
    ++ "1. Open each conflicted file\n"
    ++ "2. Look for conflict markers: `<<<<<<<`, `=======`, `>>>>>>>`\n"
    ++ "3. Resolve conflicts prioritizing main branch changes\n"
    ++ "4. Remove conflict markers\n"
    ++ "5. Stage resolved files: `git add <file>`\n"
    ++ "6. Continue rebase: `git rebase --continue`\n"
    ++ "7. Run feature_sync again to verify\n\n"
    ++ "## Strategy\n\n"
    ++ "- **Main branch wins**: When business logic conflicts, prefer main branch changes\n"
    ++ "- **Adapt feature**: Modify feature code to work with main changes\n"
    ++ "- **Test thoroughly**: Ensure merged code functions correctly\n"

/-- The delegate prompt (feature-sync.ts:87-114). -/
def instructionsText (branchName : String) (files : List String) (analysis : String) : String :=
  "I need you to resolve merge conflicts that occurred during a feature sync.\n\n"
    ++ "## Context\n- Feature branch: " ++ branchName
    ++ "\n- Syncing with: main branch\n- Conflicts detected in: " ++ joinSep ", " files
    ++ "\n\n## Conflict Resolution Strategy\n**IMPORTANT: Prioritize main branch changes when in doubt**\n\n"
    ++ analysis
    ++ "\n\n## Your Task\n1. **Analyze each conflict** - understand what changed in both branches\n"
    ++ "2. **Resolve conflicts** following the main-first strategy:\n"
    ++ "   - Keep main branch changes when there are conflicting business logic changes\n"
    ++ "   - Preserve feature functionality that doesn\x27t conflict with main\n"
    ++ "   - Ensure the merged code is functional and follows existing patterns\n"
    ++ "3. **Stage resolved files** using git add\n"
    ++ "4. **Continue the rebase** with git rebase --continue\n"
    ++ "5. **Verify the resolution** by running any available tests\n\n"
    ++ "## Resolution Priority\n1. Main branch changes take precedence for core functionality\n"
    ++ "2. Feature changes should be adapted to work with main changes\n"
    ++ "3. Ensure no functionality is broken in the final result\n\n"
    ++ "Work systematically through each conflict. When complete, the rebase should finish successfully."

/-! ## Re-parsing the conflict report

The round-trip reader for the report: the lines of the `## Conflicted
Files` section (up to the next `## ` heading) that carry a `- ` bullet. -/

/-- The heading opening the path list of the report. -/
def reportHeaderLine : List Char := "## Conflicted Files".data

/-- A heading line marker. -/
def sectMark : List Char := "## ".data

/-- A bullet line marker. -/
def dashMark : List Char := "- ".data

/-- Drop lines up to and including the `## Conflicted Files` heading. -/
def dropThroughHeader : List (List Char) → List (List Char)
  | [] => []
  | l :: ls => if l = reportHeaderLine then ls else dropThroughHeader ls

/-- Re-parse a conflict report for its path list. -/
def parseConflictReportPaths (doc : String) : List String :=
  let ls := splitOnChar '\n' doc.data
  let sect := (dropThroughHeader ls).takeWhile (fun l => !(isPre sectMark l))
  sect.filterMap (fun l => if isPre dashMark l then some (String.mk (l.drop 2)) else none)

/-- The fixed report text following the `## Resolution Steps` heading line. -/
def reportTail : String :=
  "1. Open each conflicted file\n"
    ++ "2. Look for conflict markers: `<<<<<<<`, `=======`, `>>>>>>>`\n"
    ++ "3. Resolve conflicts prioritizing main branch changes\n"
    ++ "4. Remove conflict markers\n"
    ++ "5. Stage resolved files: `git add <file>`\n"
    ++ "6. Continue rebase: `git rebase --continue`\n"
    ++ "7. Run feature_sync again to verify\n\n"
    ++ "## Strategy\n\n"
    ++ "- **Main branch wins**: When business logic conflicts, prefer main branch changes\n"
    ++ "- **Adapt feature**: Modify feature code to work with main changes\n"
    ++ "- **Test thoroughly**: Ensure merged code functions correctly\n"

/-! ## The sync orchestrator

`featureSync` below is the shallow embedding of `featureSync` in
`src/tools/feature-sync.ts`.  The environment and every external call
outcome come from oracle records; the interpreter records each git,
filesystem and subprocess invocation in a trace.  `git.status()` and
`git.log()` queries and `fs.writeFileSync` are modelled as always
succeeding; `git rebase --abort` succeeds exactly when a rebase is in
progress (its failure is ignored wherever the source ignores it). -/

/-- The process environment read by the tool. -/
structure SyncEnv where
  projectRoot : Option String
  claudeCommand : Option String
  claudeArgs : Option String

/-- JavaScript truthiness of an environment variable: unset and empty are
both falsy. -/
def truthyEnv : Option String → Option String
  | none => none
  | some s => if s = "" then none else some s

/-- Model of the CLAUDE_COMMAND environment fallback, defaulting to claude
(feature-sync.ts:118). -/
def claudeCmdOf (env : SyncEnv) : String :=
  (truthyEnv env.claudeCommand).getD "claude"

/-- Model of the CLAUDE_ARGS environment value split on spaces, defaulting
to the single permission-skipping flag (feature-sync.ts:119). -/
def claudeArgListOf (env : SyncEnv) : List String :=
  match truthyEnv env.claudeArgs with
  | some s => (splitOnChar ' ' s.data).map String.mk
  | none => ["--dangerously-skip-permissions"]

/-- An `execa(command, args, options)` invocation as performed at
feature-sync.ts:121-125. -/
structure ExecaCall where
  command : String
  args : List String
  inputText : String
  stdio : List String
  cwd : String
  timeoutMs : Option Nat
deriving DecidableEq

/-- One external call performed by the orchestrator. -/
inductive SyncOp where
  | checkRepo (cwd : String)
  | fetch (cwd remote ref : String)
  | logRange (cwd range : String)
  | checkoutB (cwd ref : String)
  | pull (cwd remote ref : String)
  | rebase (cwd : String) (args : List String)
  | statusQ (cwd : String)
  | stashPush (cwd : String)
  | stashPop (cwd : String)
  | readF (p : String)
  | execaRun (call : ExecaCall)
  | writeFile (p content : String)
  | unlink (p : String)
deriving DecidableEq

/-- Terminal outcome of one sync invocation: a returned MCP text result or
a thrown error. -/
inductive SyncResult where
  | ok (text : String)
  | thrown (msg : String)
deriving DecidableEq

/-- Oracle describing the repository, filesystem and subprocess behaviour
one sync invocation observes. `dirtyAtStart` records whether the working
tree holds uncommitted modifications when the attempt starts (the canonical
orchestrator never queries it). `rebaseFailInProgress` is the rebase-merge
metadata state right after a failed `git rebase main`;
`rebaseInProgressAfterClaude` is that state after the delegate subprocess
episode ends (the agent may itself have continued or aborted the rebase). -/
structure SyncWorld where
  fs0 : String → Bool
  isRepo : Bool
  fetchErr : Option String
  newCommitCount : Nat
  checkoutMainErr : Option String
  pullErr : Option String
  checkoutFeatureErr : Option String
  rebaseErr : Option String
  rebaseFailInProgress : Bool
  conflictedAfterRebase : List String
  aheadAfterSuccess : Nat
  readFile : String → Except String String
  claudeErr : Option String
  conflictedAfterClaude : List String
  aheadAfterClaude : Nat
  rebaseInProgressAfterClaude : Bool
  dirtyAtStart : Bool
  now : String

/-- Final state of one sync invocation: its result, whether rebase-merge
metadata is still present, and the trace of calls made. -/
structure SyncOut where
  result : SyncResult
  rebaseInProgress : Bool
  trace : List SyncOp
deriving DecidableEq

/-- Whether a file exists after the traced writes and unlinks, starting
from the initial filesystem. -/
def fileExistsAfter (fs0 : String → Bool) (tr : List SyncOp) (p : String) : Bool :=
  tr.foldl (fun ex op =>
    match op with
    | .writeFile q _ => if q = p then true else ex
    | .unlink q => if q = p then false else ex
    | _ => ex) (fs0 p)

/-- Content a file holds after the traced writes, when some write reached it. -/
def fileContentAfter (tr : List SyncOp) (p : String) : Option String :=
  tr.foldl (fun c op =>
    match op with
    | .writeFile q s => if q = p then some s else c
    | .unlink q => if q = p then none else c
    | _ => c) none

/-- Model of the Node path.join of the worktree path and CONFLICTS.md
(feature-sync.ts:154). -/
def conflictsPathOf (wt : String) : String := pathJoin [wt, "CONFLICTS.md"]

/-- The delegate invocation built at feature-sync.ts:116-125: prompt on
stdin, piped stdio, cwd at the worktree, and no timeout option. -/
def claudeCallOf (env : SyncEnv) (wt instr : String) : ExecaCall :=
  { command := claudeCmdOf env, args := claudeArgListOf env, inputText := instr,
    stdio := ["pipe", "pipe", "pipe"], cwd := wt, timeoutMs := none }

/-- The outer catch (feature-sync.ts:175-184): an abort is attempted with
its own failure ignored, so afterwards no rebase is in progress, and the
caught error is rethrown unchanged. -/
def fatalOut (tr : List SyncOp) (wt msg : String) : SyncOut :=
  ⟨.thrown msg, false, tr ++ [.rebase wt ["--abort"]]⟩

/-- The Claude-failure catch (feature-sync.ts:151-168): the report is
persisted to CONFLICTS.md and a normal manual-intervention result is
returned; no abort is issued, so the rebase metadata stays as the delegate
episode left it. -/
def manualOut (n : String) (w : SyncWorld) (wt : String) (files : List String)
    (tr : List SyncOp) : SyncOut :=
  ⟨.ok (manualInterventionText n w.newCommitCount files), w.rebaseInProgressAfterClaude,
    tr ++ [.writeFile (conflictsPathOf wt) (generateConflictReport w.now files)]⟩

/-- The conflicted-rebase branch (feature-sync.ts:79-168): build the
analysis and prompt, launch the delegate, re-query `status()`, report a
resolved success only when the conflicted set is empty, and otherwise fall
into the manual-intervention catch. -/
def conflictBranch (n : String) (env : SyncEnv) (w : SyncWorld) (wt br : String)
    (tr : List SyncOp) : SyncOut :=
  let files := w.conflictedAfterRebase
  let instr := instructionsText br files (generateConflictAnalysis w.readFile files)
  let tr1 := tr ++ files.map SyncOp.readF ++ [.execaRun (claudeCallOf env wt instr)]
  match w.claudeErr with
  | some _ => manualOut n w wt files tr1
  | none =>
    if w.conflictedAfterClaude = [] then
      ⟨.ok (resolvedSuccessText n w.newCommitCount files w.aheadAfterClaude),
        w.rebaseInProgressAfterClaude, tr1 ++ [.statusQ wt, .statusQ wt]⟩
    else
      manualOut n w wt files (tr1 ++ [.statusQ wt])

/-- The calls preceding the rebase attempt, in source order
(feature-sync.ts:32-51): checkIsRepo, fetch origin main, log
main..origin/main, checkout main, pull origin main, checkout the feature
branch in the worktree. -/
def preTrace (root wt br : String) : List SyncOp :=
  [.checkRepo wt, .fetch root "origin" "main", .logRange root "main..origin/main",
   .checkoutB root "main", .pull root "origin" "main", .checkoutB wt br]

/-- Shallow embedding of `featureSync` (feature-sync.ts:10-185).
`initRebase` is whether rebase-merge metadata already exists when the call
starts. -/
def featureSync (n : String) (env : SyncEnv) (w : SyncWorld) (initRebase : Bool) : SyncOut :=
  match truthyEnv env.projectRoot with
  | none => ⟨.thrown projectRootErrMsg, initRebase, []⟩
  | some root =>
    let wt := worktreePathOf root n
    let br := branchNameOf n
    if w.fs0 wt = false then
      ⟨.thrown (notFoundMsg n wt), initRebase, []⟩
    else if w.isRepo = false then
      fatalOut [.checkRepo wt] wt notRepoMsg
    else
      match w.fetchErr with
      | some e => fatalOut [.checkRepo wt, .fetch root "origin" "main"] wt e
      | none =>
        match w.checkoutMainErr with
        | some e => fatalOut ((preTrace root wt br).take 4) wt e
        | none =>
          match w.pullErr with
          | some e => fatalOut ((preTrace root wt br).take 5) wt e
          | none =>
            match w.checkoutFeatureErr with
            | some e => fatalOut (preTrace root wt br) wt e
            | none =>
              match w.rebaseErr with
              | none =>
                ⟨.ok (cleanSuccessText n w.newCommitCount w.aheadAfterSuccess), false,
                  preTrace root wt br ++ [.rebase wt ["main"], .statusQ wt]⟩
              | some e =>
                if w.conflictedAfterRebase = [] then
                  fatalOut (preTrace root wt br ++ [.rebase wt ["main"], .statusQ wt]) wt
                    ("Rebase failed: " ++ e)
                else
                  conflictBranch n env w wt br
                    (preTrace root wt br ++ [.rebase wt ["main"], .statusQ wt])

/-! ## Trace observations -/

/-- A `git rebase --continue` invocation. -/
def isRebaseContinue : SyncOp → Bool
  | .rebase _ args => args == ["--continue"]
  | _ => false

/-- A stash push or pop. -/
def isStashOp : SyncOp → Bool
  | .stashPush _ => true
  | .stashPop _ => true
  | _ => false

/-- A file deletion. -/
def isUnlinkOp : SyncOp → Bool
  | .unlink _ => true
  | _ => false

/-- A `git rebase main` invocation (the rebase attempt itself). -/
def isRebaseAttempt : SyncOp → Bool
  | .rebase _ args => args == ["main"]
  | _ => false

/-- The delegate subprocess invocations recorded in a trace. -/
def execaCallsOf (tr : List SyncOp) : List ExecaCall :=
  tr.filterMap (fun op => match op with | .execaRun c => some c | _ => none)

/-! ## Concrete scenarios

Named environments and worlds used by the concrete theorems below. -/

/-- Environment with PROJECT_ROOT set and the Claude defaults. -/
def exEnv : SyncEnv :=
  { projectRoot := some "/proj", claudeCommand := none, claudeArgs := none }

/-- Baseline world: the worktree for feature `delta` exists and every call
succeeds with no conflicts. -/
def exWorldClean : SyncWorld where
  fs0 := fun p => p == "/proj/.worktrees/delta"
  isRepo := true
  fetchErr := none
  newCommitCount := 1
  checkoutMainErr := none
  pullErr := none
  checkoutFeatureErr := none
  rebaseErr := none
  rebaseFailInProgress := false
  conflictedAfterRebase := []
  aheadAfterSuccess := 3
  readFile := fun _ => .error "ENOENT"
  claudeErr := none
  conflictedAfterClaude := []
  aheadAfterClaude := 0
  rebaseInProgressAfterClaude := false
  dirtyAtStart := false
  now := "2024-01-01T00:00:00.000Z"

/-- Up-to-date world: zero new upstream commits, no divergence, the rebase
trivially succeeds. -/
def exWorldUpToDate : SyncWorld :=
  { exWorldClean with newCommitCount := 0, aheadAfterSuccess := 0 }

/-- Dirty-tree world: uncommitted modifications at attempt start, clean
rebase otherwise. -/
def exWorldDirty : SyncWorld :=
  { exWorldClean with dirtyAtStart := true }

/-- Non-conflict rebase failure: the rebase throws but the conflicted set
stays empty. -/
def exWorldNetErr : SyncWorld :=
  { exWorldClean with rebaseErr := some "Network error",
                      rebaseFailInProgress := true }

/-- Conflicted rebase, delegate crashes (e.g. a timeout), leaving the
rebase in progress. -/
def exWorldManual : SyncWorld :=
  { exWorldClean with
      rebaseErr := some "CONFLICT: Merge conflict in src/c.ts",
      conflictedAfterRebase := ["src/c.ts"],
      rebaseFailInProgress := true,
      claudeErr := some "Claude Code timeout",
      conflictedAfterClaude := ["src/c.ts"],
      rebaseInProgressAfterClaude := true }

/-- Conflicted rebase, delegate returns with all conflicts cleared but the
rebase not yet continued; a stale CONFLICTS.md from an earlier failed
attempt is present. -/
def exWorldResolved : SyncWorld :=
  { exWorldClean with
      fs0 := fun p =>
        p == "/proj/.worktrees/delta" || p == "/proj/.worktrees/delta/CONFLICTS.md",
      rebaseErr := some "CONFLICT: Merge conflict in src/c.ts",
      conflictedAfterRebase := ["src/c.ts"],
      rebaseFailInProgress := true,
      claudeErr := none,
      conflictedAfterClaude := [],
      aheadAfterClaude := 4,
      rebaseInProgressAfterClaude := true }

/-- The delegate invocation the conflicted scenario performs. -/
def exCallManual : ExecaCall :=
  claudeCallOf exEnv "/proj/.worktrees/delta"
    (instructionsText "feature/delta" ["src/c.ts"]
      (generateConflictAnalysis exWorldManual.readFile ["src/c.ts"]))

/-! ## Helper lemmas -/

theorem stringEq_of_data {a b : String} (h : a.data = b.data) : a = b := by
  cases a
  cases b
  exact congrArg String.mk h

theorem string_mk_data (s : String) : String.mk s.data = s := by
  cases s
  rfl

theorem data_ne_nil_of_ne {s : String} (h : s ≠ "") : s.data ≠ [] := by
  intro hd
  exact h (stringEq_of_data (by simp [hd]))

theorem splitOnChar_ne_nil (sep : Char) (l : List Char) : splitOnChar sep l ≠ [] := by
  induction l with
  | nil => simp [splitOnChar]
  | cons c cs ih =>
    unfold splitOnChar
    split
    · simp
    · split
      · simp
      · simp

theorem splitOnChar_append_sep (sep : Char) (xs ys : List Char) :
    splitOnChar sep (xs ++ sep :: ys) = splitOnChar sep xs ++ splitOnChar sep ys := by
  induction xs with
  | nil => simp [splitOnChar]
  | cons c cs ih =>
    by_cases hc : c = sep
    · subst hc
      simp [splitOnChar, ih]
    · simp only [List.cons_append, splitOnChar, if_neg hc, ih]
      cases h : splitOnChar sep cs with
      | nil => exact absurd h (splitOnChar_ne_nil sep cs)
      | cons s rest =>
        simp only [List.append_eq]
        rw [ih, h]
        simp

theorem splitOnChar_no_sep (sep : Char) (xs : List Char) (h : sep ∉ xs) :
    splitOnChar sep xs = [xs] := by
  induction xs with
  | nil => rfl
  | cons c cs ih =>
    simp only [List.mem_cons, not_or] at h
    have hc : ¬ c = sep := fun hh => h.1 hh.symm
    simp [splitOnChar, hc, ih h.2]

theorem normAux_append_plain (b : Bool) (p : List Char) (hp : plainSeg p)
    (ss : List (List Char)) :
    ∀ acc : List (List Char), normAux b acc (ss ++ [p]) = normAux b acc ss ++ [p] := by
  induction ss with
  | nil =>
    intro acc
    obtain ⟨h1, h2, h3⟩ := hp
    simp [normAux, h1, h2, h3]
  | cons s rest ih =>
    intro acc
    simp only [List.cons_append]
    unfold normAux
    split
    · exact ih acc
    · split
      · split
        · split <;> exact ih _
        · split <;> exact ih _
      · exact ih _

theorem joinSegs_cons_append (s : List Char) (xs : List (List Char)) (y : List Char) :
    joinSegs (s :: (xs ++ [y])) = joinSegs (s :: xs) ++ '/' :: y := by
  induction xs generalizing s with
  | nil => simp [joinSegs]
  | cons t ts ih =>
    simp only [List.cons_append, List.append_eq, joinSegs]
    rw [ih t]
    simp [joinSegs]

theorem plainSeg_of_plainName {n : String} (hn : plainName n) : plainSeg n.data := by
  obtain ⟨h0, _, hd, hdd⟩ := hn
  refine ⟨data_ne_nil_of_ne h0, ?_, ?_⟩
  · intro h
    exact hd (stringEq_of_data (by rw [h]))
  · intro h
    exact hdd (stringEq_of_data (by rw [h]))

/-- For a normalized absolute project root other than `/` and a feature
name free of path separators and dot segments, `path.join` concatenates
verbatim: the worktree path is literally
`projectRoot ++ "/.worktrees/" ++ featureName`. -/
theorem lastIsSlash_append (l₁ l₂ : List Char) (h : l₂ ≠ []) :
    lastIsSlash (l₁ ++ l₂) = lastIsSlash l₂ := by
  induction l₁ with
  | nil => rfl
  | cons a l ih =>
    have hne : l ++ l₂ ≠ [] := by
      intro hx
      rcases List.append_eq_nil.mp hx with ⟨_, h2⟩
      exact h h2
    cases hl : l ++ l₂ with
    | nil => exact absurd hl hne
    | cons b bs =>
      calc lastIsSlash ((a :: l) ++ l₂) = lastIsSlash (a :: b :: bs) := by
            rw [List.cons_append, hl]
        _ = lastIsSlash (b :: bs) := rfl
        _ = lastIsSlash (l ++ l₂) := by rw [hl]
        _ = lastIsSlash l₂ := ih

theorem lastIsSlash_no_slash (l : List Char) (h : '/' ∉ l) : lastIsSlash l = false := by
  induction l with
  | nil => rfl
  | cons a t ih =>
    cases t with
    | nil =>
      have ha : ¬(a = '/') := fun hh => h (by simp [hh])
      simp [lastIsSlash, ha]
    | cons b bs =>
      have ht : '/' ∉ b :: bs := fun hm => h (List.mem_cons_of_mem a hm)
      calc lastIsSlash (a :: b :: bs) = lastIsSlash (b :: bs) := rfl
        _ = false := ih ht

theorem worktreePathOf_plain (root n : String)
    (hr : normalizePath root = root)
    (habs : isPre ['/'] root.data = true)
    (hlast : lastIsSlash root.data = false)
    (hroot1 : root ≠ "/")
    (hn : plainName n) :
    worktreePathOf root n = root ++ "/.worktrees/" ++ n := by
  obtain ⟨hn0, hnslash, hnd, hndd⟩ := hn
  obtain ⟨tl, htl⟩ : ∃ tl, root.data = '/' :: tl := by
    cases hd : root.data with
    | nil => rw [hd] at habs; simp [isPre] at habs
    | cons c cs =>
      rw [hd] at habs
      simp only [isPre, Bool.and_eq_true, decide_eq_true_eq] at habs
      exact ⟨cs, by rw [← habs.1]⟩
  have hroot0 : root ≠ "" := by
    intro h
    rw [h] at htl
    exact absurd htl (by simp)
  have hdne : ¬(root.data = []) := by
    rw [htl]
    simp
  have hN : root.data = '/' :: joinSegs (normAux true [] (splitOnChar '/' root.data)) := by
    conv_lhs => rw [← hr]
    unfold normalizePath
    rw [if_neg hdne, habs, hlast]
    cases hsegs : normAux true [] (splitOnChar '/' root.data) with
    | nil => simp [hsegs, joinSegs]
    | cons a b => simp [hsegs]
  have hsplit :
      splitOnChar '/' (root.data ++ '/' :: (".worktrees".data ++ '/' :: n.data))
        = splitOnChar '/' root.data ++ [".worktrees".data] ++ [n.data] := by
    rw [splitOnChar_append_sep, splitOnChar_append_sep,
      splitOnChar_no_sep '/' ".worktrees".data (by decide),
      splitOnChar_no_sep '/' n.data hnslash]
    simp
  have hnorm :
      normAux true [] (splitOnChar '/' root.data ++ [".worktrees".data] ++ [n.data])
        = normAux true [] (splitOnChar '/' root.data) ++ [".worktrees".data] ++ [n.data] := by
    rw [normAux_append_plain true n.data (plainSeg_of_plainName ⟨hn0, hnslash, hnd, hndd⟩)]
    rw [normAux_append_plain true ".worktrees".data (by decide)]
  obtain ⟨n0, N', hN'⟩ :
      ∃ n0 N', normAux true [] (splitOnChar '/' root.data) = n0 :: N' := by
    cases hcase : normAux true [] (splitOnChar '/' root.data) with
    | nil =>
      rw [hcase] at hN
      exact absurd (stringEq_of_data (show root.data = "/".data by rw [hN]; rfl)) hroot1
    | cons a b => exact ⟨a, b, rfl⟩
  have hjoin :
      joinSegs ((n0 :: N') ++ [".worktrees".data] ++ [n.data])
        = joinSegs (n0 :: N') ++ '/' :: ".worktrees".data ++ '/' :: n.data := by
    have h1 : (n0 :: N') ++ [".worktrees".data] ++ [n.data]
        = n0 :: ((N' ++ [".worktrees".data]) ++ [n.data]) := by simp
    rw [h1, joinSegs_cons_append, joinSegs_cons_append]
  apply stringEq_of_data
  have hfinal :
      (worktreePathOf root n).data
        = '/' :: (joinSegs (n0 :: N') ++ '/' :: ".worktrees".data ++ '/' :: n.data) := by
    unfold worktreePathOf pathJoin
    have hfil : [root, ".worktrees", n].filter (fun p => p ≠ "") = [root, ".worktrees", n] := by
      simp [hroot0, hn0]
    rw [hfil]
    have hkept : ([root, ".worktrees", n] : List String) ≠ [] := by simp
    simp only [if_neg hkept]
    have hjs : joinSep "/" [root, ".worktrees", n] = root ++ "/" ++ (".worktrees" ++ "/" ++ n) := by
      simp [joinSep]
    rw [hjs]
    unfold normalizePath
    have hsdata : (root ++ "/" ++ (".worktrees" ++ "/" ++ n)).data
        = root.data ++ '/' :: (".worktrees".data ++ '/' :: n.data) := by
      simp [String.data_append]
    rw [hsdata]
    have hne0 : ¬(root.data ++ '/' :: (".worktrees".data ++ '/' :: n.data) = []) := by
      rw [htl]
      simp
    have habs2 : isPre ['/'] (root.data ++ '/' :: (".worktrees".data ++ '/' :: n.data)) = true := by
      rw [htl]
      simp [isPre]
    have htrailJ : lastIsSlash (root.data ++ '/' :: (".worktrees".data ++ '/' :: n.data))
        = false := by
      have hshape : root.data ++ '/' :: (".worktrees".data ++ '/' :: n.data)
          = (root.data ++ '/' :: ".worktrees".data ++ ['/']) ++ n.data := by
        simp
      rw [hshape, lastIsSlash_append _ _ (data_ne_nil_of_ne hn0),
        lastIsSlash_no_slash n.data hnslash]
    rw [if_neg hne0, habs2, htrailJ]
    simp only [hsplit, hnorm, hN', hjoin]
    simp
  rw [hfinal]
  have hrhs : (root ++ "/.worktrees/" ++ n).data
      = root.data ++ ('/' :: ".worktrees".data ++ ['/']) ++ n.data := by
    simp [String.data_append]
  rw [hrhs, hN, hN']
  simp

theorem splitOnChar_cons_sep (sep : Char) (rest : List Char) :
    splitOnChar sep (sep :: rest) = [] :: splitOnChar sep rest := by
  simp [splitOnChar]

theorem splitOnChar_line (sep : Char) (x rest : List Char) (hx : sep ∉ x) :
    splitOnChar sep (x ++ sep :: rest) = x :: splitOnChar sep rest := by
  rw [splitOnChar_append_sep, splitOnChar_no_sep sep x hx]
  rfl

theorem splitLines_entries (files : List String) (hf : ∀ f ∈ files, '\n' ∉ f.data)
    (tail : List Char) :
    splitOnChar '\n' ((strJoin (files.map (fun file => "- " ++ file ++ "\n"))).data ++ tail)
      = files.map (fun f => '-' :: ' ' :: f.data) ++ splitOnChar '\n' tail := by
  induction files with
  | nil => simp [strJoin]
  | cons f fs ih =>
    simp only [List.map_cons, strJoin]
    have hstep :
        (("- " ++ f ++ "\n") ++ strJoin (List.map (fun file => "- " ++ file ++ "\n") fs)).data
            ++ tail
          = ('-' :: ' ' :: f.data) ++ '\n'
              :: ((strJoin (List.map (fun file => "- " ++ file ++ "\n") fs)).data ++ tail) := by
      simp [String.data_append, show "- ".data = ['-', ' '] from rfl,
        show "\n".data = ['\n'] from rfl]
    have hx : '\n' ∉ ('-' :: ' ' :: f.data) := by
      have hmem := hf f (by simp)
      simp [hmem]
    rw [hstep, splitOnChar_line '\n' _ _ hx,
      ih (fun g hg => hf g (List.mem_cons_of_mem f hg))]
    simp

theorem takeWhile_append_of_all {α : Type} (p : α → Bool) (xs ys : List α)
    (h : ∀ x ∈ xs, p x = true) :
    (xs ++ ys).takeWhile p = xs ++ ys.takeWhile p := by
  induction xs with
  | nil => simp
  | cons a l ih =>
    simp only [List.cons_append, List.takeWhile_cons]
    rw [h a (by simp)]
    simp [ih (fun x hx => h x (by simp [hx]))]

set_option maxRecDepth 8192 in
theorem genReport_split (now : String) (files : List String) (hnow : '\n' ∉ now.data)
    (hf : ∀ f ∈ files, '\n' ∉ f.data) :
    ∃ t, splitOnChar '\n' (generateConflictReport now files).data
      = "# Conflict Resolution Required".data :: [] :: ("Generated: ".data ++ now.data) :: []
          :: reportHeaderLine :: []
          :: (files.map (fun f => '-' :: ' ' :: f.data)
              ++ [] :: "## Resolution Steps".data :: t) := by
  have hdata : (generateConflictReport now files).data
      = "# Conflict Resolution Required".data ++ '\n'
          :: ('\n' :: (("Generated: ".data ++ now.data) ++ '\n'
          :: ('\n' :: (reportHeaderLine ++ '\n'
          :: ('\n' :: ((strJoin (files.map (fun file => "- " ++ file ++ "\n"))).data ++ '\n'
          :: ("## Resolution Steps".data ++ '\n' :: ('\n' :: reportTail.data)))))))) := by
    simp [generateConflictReport, reportHeaderLine, reportTail, String.data_append,
      show "# Conflict Resolution Required\n\n".data
        = "# Conflict Resolution Required".data ++ ['\n', '\n'] from rfl,
      show "\n\n".data = ['\n', '\n'] from rfl,
      show "## Conflicted Files\n\n".data = "## Conflicted Files".data ++ ['\n', '\n'] from rfl,
      show "\n## Resolution Steps\n\n".data
        = '\n' :: ("## Resolution Steps".data ++ ['\n', '\n']) from rfl]
  refine ⟨splitOnChar '\n' ('\n' :: reportTail.data), ?_⟩
  rw [hdata, splitOnChar_line '\n' _ _ (by decide), splitOnChar_cons_sep,
    splitOnChar_line '\n' _ _ ?hgen, splitOnChar_cons_sep,
    splitOnChar_line '\n' _ _ (by decide), splitOnChar_cons_sep,
    splitLines_entries files hf, splitOnChar_cons_sep,
    splitOnChar_line '\n' _ _ (by decide)]
  case hgen =>
    intro hm
    rcases List.mem_append.mp hm with hm1 | hm2
    · exact absurd hm1 (by decide)
    · exact hnow hm2

theorem report_roundTrip (now : String) (files : List String) (hnow : '\n' ∉ now.data)
    (hf : ∀ f ∈ files, '\n' ∉ f.data) :
    parseConflictReportPaths (generateConflictReport now files) = files := by
  obtain ⟨t, ht⟩ := genReport_split now files hnow hf
  unfold parseConflictReportPaths
  dsimp only
  rw [ht]
  have hne : ("Generated: ".data ++ now.data) ≠ reportHeaderLine := by
    have hG : "Generated: ".data ++ now.data = 'G' :: ("enerated: ".data ++ now.data) := rfl
    rw [hG]
    intro h
    injection h with h1 _
    exact absurd h1 (by decide)
  have hdrop : dropThroughHeader
      ("# Conflict Resolution Required".data :: [] :: ("Generated: ".data ++ now.data) :: []
        :: reportHeaderLine :: []
        :: (files.map (fun f => '-' :: ' ' :: f.data) ++ [] :: "## Resolution Steps".data :: t))
      = [] :: (files.map (fun f => '-' :: ' ' :: f.data)
          ++ [] :: "## Resolution Steps".data :: t) := by
    simp only [dropThroughHeader]
    rw [if_neg (by decide), if_neg (by decide), if_neg hne, if_neg (by decide)]
    simp
  rw [hdrop, ← List.cons_append,
    takeWhile_append_of_all _ ([] :: files.map (fun f => '-' :: ' ' :: f.data)) _ ?hall]
  case hall =>
    intro x hx
    rcases List.mem_cons.mp hx with h0 | hmap
    · rw [h0]
      rfl
    · obtain ⟨f, _, rfl⟩ := List.mem_map.mp hmap
      rfl
  have htail : List.takeWhile (fun l => !(isPre sectMark l))
      (([] : List Char) :: "## Resolution Steps".data :: t) = [[]] := by
    have h1 : (fun l => !(isPre sectMark l)) ([] : List Char) = true := rfl
    have h2 : (fun l => !(isPre sectMark l)) ("## Resolution Steps".data) = false := rfl
    simp [List.takeWhile_cons, h1, h2]
  rw [htail]
  have hq : ∀ fs : List String,
      List.filterMap
        (fun l => if isPre dashMark l then some (String.mk (l.drop 2)) else none)
        (fs.map (fun f => '-' :: ' ' :: f.data)) = fs := by
    intro fs
    induction fs with
    | nil => rfl
    | cons a l ihq =>
      simp only [List.map_cons, List.filterMap_cons]
      rw [if_pos (show isPre dashMark ('-' :: ' ' :: a.data) = true from rfl)]
      simp [ihq, string_mk_data]
  have hfalse : isPre dashMark [] = false := rfl
  simp [List.filterMap_cons, List.filterMap_append, hfalse, hq]

theorem featureSync_no_stash (n : String) (env : SyncEnv) (w : SyncWorld) (i : Bool) :
    ((featureSync n env w i).trace.all fun op => !(isStashOp op)) = true := by
  unfold featureSync conflictBranch
  repeat' split
  all_goals simp [fatalOut, manualOut, preTrace, isStashOp, List.all_append, List.all_map,
    Function.comp]
  all_goals repeat' split
  all_goals simp [isStashOp]
  all_goals aesop

theorem featureSync_no_continue (n : String) (env : SyncEnv) (w : SyncWorld) (i : Bool) :
    ((featureSync n env w i).trace.all fun op => !(isRebaseContinue op)) = true := by
  unfold featureSync conflictBranch
  repeat' split
  all_goals simp [fatalOut, manualOut, preTrace, isRebaseContinue, List.all_append, List.all_map,
    Function.comp]
  all_goals repeat' split
  all_goals simp [isRebaseContinue]
  all_goals aesop

theorem featureSync_no_unlink (n : String) (env : SyncEnv) (w : SyncWorld) (i : Bool) :
    ((featureSync n env w i).trace.all fun op => !(isUnlinkOp op)) = true := by
  unfold featureSync conflictBranch
  repeat' split
  all_goals simp [fatalOut, manualOut, preTrace, isUnlinkOp, List.all_append, List.all_map,
    Function.comp]
  all_goals repeat' split
  all_goals simp [isUnlinkOp]
  all_goals aesop

theorem fileExistsAfter_append_write (fs0 : String → Bool) (tr : List SyncOp) (p c : String) :
    fileExistsAfter fs0 (tr ++ [.writeFile p c]) p = true := by
  unfold fileExistsAfter
  rw [List.foldl_append]
  simp

theorem fileContentAfter_append_write (tr : List SyncOp) (p c : String) :
    fileContentAfter (tr ++ [.writeFile p c]) p = some c := by
  unfold fileContentAfter
  rw [List.foldl_append]
  simp

theorem featureSync_manual (n root : String) (env : SyncEnv) (w : SyncWorld)
    (hroot : truthyEnv env.projectRoot = some root)
    (hfs : w.fs0 (worktreePathOf root n) = true)
    (hrepo : w.isRepo = true) (hfetch : w.fetchErr = none) (hcm : w.checkoutMainErr = none)
    (hpull : w.pullErr = none) (hcf : w.checkoutFeatureErr = none)
    (e : String) (hreb : w.rebaseErr = some e) (hconf : w.conflictedAfterRebase ≠ [])
    (hfail : w.claudeErr ≠ none ∨ w.conflictedAfterClaude ≠ []) :
    ∃ tr, featureSync n env w false
      = manualOut n w (worktreePathOf root n) w.conflictedAfterRebase tr := by
  unfold featureSync
  rw [hroot]
  simp only [hfs, hrepo, hfetch, hcm, hpull, hcf, hreb]
  rw [if_neg hconf]
  unfold conflictBranch
  cases hcl : w.claudeErr with
  | some err =>
    simp only [hcl]
    exact ⟨_, rfl⟩
  | none =>
    have hcc : w.conflictedAfterClaude ≠ [] := by
      rcases hfail with h | h
      · exact absurd hcl h
      · exact h
    simp only [hcl]
    rw [if_neg hcc]
    exact ⟨_, rfl⟩

theorem featureSync_resolved (n root : String) (env : SyncEnv) (w : SyncWorld)
    (hroot : truthyEnv env.projectRoot = some root)
    (hfs : w.fs0 (worktreePathOf root n) = true)
    (hrepo : w.isRepo = true) (hfetch : w.fetchErr = none) (hcm : w.checkoutMainErr = none)
    (hpull : w.pullErr = none) (hcf : w.checkoutFeatureErr = none)
    (e : String) (hreb : w.rebaseErr = some e) (hconf : w.conflictedAfterRebase ≠ [])
    (hcl : w.claudeErr = none) (hcc : w.conflictedAfterClaude = []) :
    (featureSync n env w false).result
        = .ok (resolvedSuccessText n w.newCommitCount w.conflictedAfterRebase w.aheadAfterClaude)
      ∧ (featureSync n env w false).rebaseInProgress = w.rebaseInProgressAfterClaude := by
  unfold featureSync
  rw [hroot]
  simp only [hfs, hrepo, hfetch, hcm, hpull, hcf, hreb]
  rw [if_neg hconf]
  unfold conflictBranch
  simp only [hcl, hcc]
  exact ⟨rfl, rfl⟩

example : worktreePathOf "/proj" "delta" = "/proj/.worktrees/delta" := by decide
example : worktreePathOf "/proj" "a/b" = "/proj/.worktrees/a/b" := by decide
example : worktreePathOf "/proj" "a//b/./c" = "/proj/.worktrees/a/b/c" := by decide
example : worktreePathOf "/proj" "../escape" = "/proj/escape" := by decide
example : branchNameOf "Delta" = "feature/Delta" := by rfl
example : countSplits "ab".data "xxabyab".data = 2 := by decide
example : (featureSync "delta" exEnv exWorldClean false).result
    = .ok (cleanSuccessText "delta" 1 3) := by rfl
example : (featureSync "delta" exEnv exWorldClean false).rebaseInProgress = false := by rfl
example : (featureSync "delta" exEnv exWorldManual false).result
    = .ok (manualInterventionText "delta" 1 ["src/c.ts"]) := by rfl
example : (featureSync "delta" exEnv exWorldManual false).rebaseInProgress = true := by rfl
example : (featureSync "delta" exEnv exWorldNetErr false).result
    = .thrown "Rebase failed: Network error" := by rfl
example : fileExistsAfter exWorldManual.fs0 (featureSync "delta" exEnv exWorldManual false).trace
    "/proj/.worktrees/delta/CONFLICTS.md" = true := by decide
example : parseConflictReportPaths
    (generateConflictReport "2024-01-01T00:00:00.000Z" ["src/a.ts", "src/b.ts"])
    = ["src/a.ts", "src/b.ts"] := by decide
example : normalizePath "/proj/sub/" = "/proj/sub/" := by decide
example : normalizePath "a//b/../c/" = "a/c/" := by decide
example : worktreePathOf "/proj" "x/" = "/proj/.worktrees/x/" := by decide

/-! ## Claims -/

/-- C1 counterexample: a conflicted rebase whose delegate crashes ends in
the manual-intervention result with the rebase still in progress, so the
rebase-control metadata is not absent when control returns. -/
theorem c1_counterexample :
    (featureSync "delta" exEnv exWorldManual false).result
        = .ok (manualInterventionText "delta" 1 ["src/c.ts"])
      ∧ (featureSync "delta" exEnv exWorldManual false).rebaseInProgress = true := by
  decide

/-- C1 (amended): for a sync invocation started with no rebase in progress,
the rebase-merge metadata is absent whenever sync throws; it is absent on
every run whose rebase attempt does not fail, in particular on the clean
success; and on the conflict path (resolved success or manual
intervention) the metadata equals whatever state the delegate episode left
it in — so either result can return with the rebase still in progress. -/
theorem c1_amended_rebase_metadata (n root : String) (env : SyncEnv) (w : SyncWorld) :
    (∀ m, (featureSync n env w false).result = .thrown m
        → (featureSync n env w false).rebaseInProgress = false)
    ∧ (w.rebaseErr = none → (featureSync n env w false).rebaseInProgress = false)
    ∧ (∀ e, truthyEnv env.projectRoot = some root →
        w.fs0 (worktreePathOf root n) = true →
        w.isRepo = true → w.fetchErr = none → w.checkoutMainErr = none →
        w.pullErr = none → w.checkoutFeatureErr = none →
        w.rebaseErr = some e → w.conflictedAfterRebase ≠ [] →
        (featureSync n env w false).rebaseInProgress
          = w.rebaseInProgressAfterClaude) := by
  refine ⟨?_, ?_, ?_⟩
  · intro m
    unfold featureSync conflictBranch
    repeat' split
    all_goals simp [fatalOut, manualOut]
    all_goals repeat' split
    all_goals simp [fatalOut, manualOut]
  · intro hreb
    unfold featureSync
    repeat' split
    all_goals simp_all [fatalOut]
    all_goals repeat' split
    all_goals simp_all [fatalOut]
  · intro e henv hfs hrepo hfetch hcm hpull hcf hreb hconf
    unfold featureSync
    simp only [henv]
    simp only [hfs, hrepo, hfetch, hcm, hpull, hcf, hreb]
    rw [if_neg (by simp), if_neg (by simp), if_neg hconf]
    unfold conflictBranch
    cases hcl : w.claudeErr with
    | none =>
      by_cases hca : w.conflictedAfterClaude = [] <;> simp [hca, manualOut]
    | some m => simp [manualOut]

/-- C1 witness: the conflict-path conjunct of the amended theorem at the
concrete resolved run, whose delegate left the rebase in progress. -/
theorem c1_witness :
    (featureSync "delta" exEnv exWorldResolved false).rebaseInProgress
      = exWorldResolved.rebaseInProgressAfterClaude :=
  (c1_amended_rebase_metadata "delta" "/proj" exEnv exWorldResolved).2.2
    "CONFLICT: Merge conflict in src/c.ts" (by decide) (by decide) (by decide)
    (by decide) (by decide) (by decide) (by decide) (by decide) (by decide)

/-- C2: for every conflicted rebase where the delegate fails (process
crash or timeout, or conflicts left unresolved on re-inspection), sync does
not throw: it returns the normal manual-intervention result, and the
persisted CONFLICTS.md exists and holds the generated report, whose
re-parsed path list is exactly the originally conflicted set — none lost,
none added. -/
theorem c2_delegate_failure_manual_result (n root : String) (env : SyncEnv) (w : SyncWorld)
    (hroot : truthyEnv env.projectRoot = some root)
    (hfs : w.fs0 (worktreePathOf root n) = true)
    (hrepo : w.isRepo = true) (hfetch : w.fetchErr = none) (hcm : w.checkoutMainErr = none)
    (hpull : w.pullErr = none) (hcf : w.checkoutFeatureErr = none)
    (e : String) (hreb : w.rebaseErr = some e) (hconf : w.conflictedAfterRebase ≠ [])
    (hfail : w.claudeErr ≠ none ∨ w.conflictedAfterClaude ≠ [])
    (hnow : '\n' ∉ w.now.data)
    (hfiles : ∀ f ∈ w.conflictedAfterRebase, '\n' ∉ f.data) :
    (featureSync n env w false).result
        = .ok (manualInterventionText n w.newCommitCount w.conflictedAfterRebase)
      ∧ fileExistsAfter w.fs0 (featureSync n env w false).trace
          (conflictsPathOf (worktreePathOf root n)) = true
      ∧ fileContentAfter (featureSync n env w false).trace
          (conflictsPathOf (worktreePathOf root n))
          = some (generateConflictReport w.now w.conflictedAfterRebase)
      ∧ parseConflictReportPaths (generateConflictReport w.now w.conflictedAfterRebase)
          = w.conflictedAfterRebase := by
  obtain ⟨tr, htr⟩ := featureSync_manual n root env w hroot hfs hrepo hfetch hcm hpull hcf
    e hreb hconf hfail
  rw [htr]
  exact ⟨rfl, fileExistsAfter_append_write _ _ _ _, fileContentAfter_append_write _ _ _,
    report_roundTrip w.now w.conflictedAfterRebase hnow hfiles⟩

/-- C2 witness: the theorem applied to the concrete delegate-crash run. -/
theorem c2_witness :
    (featureSync "delta" exEnv exWorldManual false).result
      = .ok (manualInterventionText "delta" 1 ["src/c.ts"]) :=
  (c2_delegate_failure_manual_result "delta" "/proj" exEnv exWorldManual (by decide) (by decide)
    (by decide) (by decide) (by decide) (by decide) (by decide)
    "CONFLICT: Merge conflict in src/c.ts" (by decide) (by decide) (Or.inl (by decide))
    (by decide) (by decide)).1

/-- C3 counterexample: a rebase failure with an empty conflicted set is
re-raised wrapped as `Rebase failed: <original message>`, not with the
original message untouched. -/
theorem c3_counterexample :
    (featureSync "delta" exEnv exWorldNetErr false).result
        = .thrown "Rebase failed: Network error"
      ∧ "Rebase failed: Network error" ≠ "Network error"
      ∧ execaCallsOf (featureSync "delta" exEnv exWorldNetErr false).trace = [] := by
  decide

/-- C3 (amended): for every rebase error whose post-failure conflicted set
is empty, sync aborts the in-progress rebase defensively, never invokes the
resolution delegate, and throws an error that wraps the original message as
`Rebase failed: <original message>`. -/
theorem c3_amended_nonconflict_failure (n root : String) (env : SyncEnv) (w : SyncWorld)
    (hroot : truthyEnv env.projectRoot = some root)
    (hfs : w.fs0 (worktreePathOf root n) = true)
    (hrepo : w.isRepo = true) (hfetch : w.fetchErr = none) (hcm : w.checkoutMainErr = none)
    (hpull : w.pullErr = none) (hcf : w.checkoutFeatureErr = none)
    (e : String) (hreb : w.rebaseErr = some e) (hconf : w.conflictedAfterRebase = []) :
    (featureSync n env w false).result = .thrown ("Rebase failed: " ++ e)
      ∧ (featureSync n env w false).rebaseInProgress = false
      ∧ execaCallsOf (featureSync n env w false).trace = [] := by
  unfold featureSync
  rw [hroot]
  simp only [hfs, hrepo, hfetch, hcm, hpull, hcf, hreb]
  rw [if_pos hconf]
  refine ⟨rfl, rfl, ?_⟩
  simp [fatalOut, execaCallsOf, preTrace]

/-- C3 witness: the amended theorem at the concrete network-error run. -/
theorem c3_witness :
    (featureSync "delta" exEnv exWorldNetErr false).result
      = .thrown ("Rebase failed: " ++ "Network error") :=
  (c3_amended_nonconflict_failure "delta" "/proj" exEnv exWorldNetErr (by decide) (by decide)
    (by decide) (by decide) (by decide) (by decide) (by decide)
    "Network error" (by decide) (by decide)).1

/-- C4 counterexample: on a conflicted rebase whose delegate clears every
conflict, sync reports the resolved success without ever issuing
`git rebase --continue`. -/
theorem c4_counterexample :
    (featureSync "delta" exEnv exWorldResolved false).result
        = .ok (resolvedSuccessText "delta" 1 ["src/c.ts"] 4)
      ∧ ((featureSync "delta" exEnv exWorldResolved false).trace.all
          fun op => !(isRebaseContinue op)) = true := by
  decide

/-- C4 (amended): sync reports a resolved success exactly when the fresh
status() re-query after the delegate returns shows an empty conflicted set
(the stdout and exit code of the process are never consulted), and the
orchestrator itself never issues `git rebase --continue` in any run —
completing the rebase is left to the external process. -/
theorem c4_amended_fresh_status_no_continue (n root : String) (env : SyncEnv) (w : SyncWorld)
    (hroot : truthyEnv env.projectRoot = some root)
    (hfs : w.fs0 (worktreePathOf root n) = true)
    (hrepo : w.isRepo = true) (hfetch : w.fetchErr = none) (hcm : w.checkoutMainErr = none)
    (hpull : w.pullErr = none) (hcf : w.checkoutFeatureErr = none)
    (e : String) (hreb : w.rebaseErr = some e) (hconf : w.conflictedAfterRebase ≠ []) :
    ((w.claudeErr = none ∧ w.conflictedAfterClaude = []) →
        (featureSync n env w false).result
          = .ok (resolvedSuccessText n w.newCommitCount w.conflictedAfterRebase
              w.aheadAfterClaude))
      ∧ ((w.claudeErr ≠ none ∨ w.conflictedAfterClaude ≠ []) →
        (featureSync n env w false).result
          = .ok (manualInterventionText n w.newCommitCount w.conflictedAfterRebase))
      ∧ (∀ (n' : String) (env' : SyncEnv) (w' : SyncWorld) (i : Bool),
        ((featureSync n' env' w' i).trace.all fun op => !(isRebaseContinue op)) = true) := by
  refine ⟨?_, ?_, fun n' env' w' i => featureSync_no_continue n' env' w' i⟩
  · rintro ⟨hcl, hcc⟩
    exact (featureSync_resolved n root env w hroot hfs hrepo hfetch hcm hpull hcf
      e hreb hconf hcl hcc).1
  · intro hfail
    obtain ⟨tr, htr⟩ := featureSync_manual n root env w hroot hfs hrepo hfetch hcm hpull hcf
      e hreb hconf hfail
    rw [htr]
    rfl

/-- C4 witness: the amended theorem at the concrete resolved run. -/
theorem c4_witness :
    (featureSync "delta" exEnv exWorldResolved false).result
      = .ok (resolvedSuccessText "delta" 1 ["src/c.ts"] 4) :=
  (c4_amended_fresh_status_no_continue "delta" "/proj" exEnv exWorldResolved (by decide)
    (by decide) (by decide) (by decide) (by decide) (by decide) (by decide)
    "CONFLICT: Merge conflict in src/c.ts" (by decide) (by decide)).1 ⟨by decide, by decide⟩

/-- C5 counterexample: the single delegate invocation of a conflicted sync
passes the prompt on stdin with the worktree as cwd but carries no timeout
option at all, contradicting the fixed 5-minute bound. -/
theorem c5_counterexample :
    execaCallsOf (featureSync "delta" exEnv exWorldManual false).trace = [exCallManual]
      ∧ exCallManual.timeoutMs = none
      ∧ exCallManual.cwd = "/proj/.worktrees/delta" :=
  ⟨rfl, rfl, rfl⟩

/-- C5 (amended): every delegate invocation passes the built conflict
prompt as the process input with piped stdio and the feature worktree as
cwd, but sets no timeout: the external call is unbounded. -/
theorem c5_amended_execa_invocation (n : String) (env : SyncEnv) (w : SyncWorld) (i : Bool) :
    ∀ c ∈ execaCallsOf (featureSync n env w i).trace,
      ∃ root, truthyEnv env.projectRoot = some root
        ∧ c = claudeCallOf env (worktreePathOf root n)
            (instructionsText (branchNameOf n) w.conflictedAfterRebase
              (generateConflictAnalysis w.readFile w.conflictedAfterRebase))
        ∧ c.inputText = instructionsText (branchNameOf n) w.conflictedAfterRebase
            (generateConflictAnalysis w.readFile w.conflictedAfterRebase)
        ∧ c.stdio = ["pipe", "pipe", "pipe"]
        ∧ c.cwd = worktreePathOf root n
        ∧ c.timeoutMs = none := by
  intro c hc
  unfold featureSync at hc
  rcases htr : truthyEnv env.projectRoot with _ | root
  · simp only [htr, execaCallsOf, List.filterMap_nil] at hc
    exact absurd hc (List.not_mem_nil c)
  · refine ⟨root, rfl, ?_⟩
    simp only [htr] at hc
    unfold conflictBranch at hc
    repeat' split at hc
    all_goals simp [execaCallsOf, fatalOut, manualOut, preTrace, List.filterMap_append] at hc
    all_goals subst hc
    all_goals exact ⟨rfl, rfl, rfl, rfl, rfl⟩

/-- C5 witness: the amended theorem at the concrete conflicted run. -/
theorem c5_witness : exCallManual.timeoutMs = none := by
  obtain ⟨root, h1, h2, h3, h4, h5, h6⟩ :=
    c5_amended_execa_invocation "delta" exEnv exWorldManual false exCallManual
      (List.mem_singleton_self exCallManual)
  exact h6

/-- C6 (code bug): at the failing input — a conflicted sync whose delegate
clears every conflict while a stale CONFLICTS.md from a prior failed
attempt exists — sync returns the resolved-success result with an empty
final conflicted set, yet performs no unlink, so the stale CONFLICTS.md
still exists afterwards, although the test suite of the repository expects
it deleted. -/
theorem c6_code_bug_eval :
    (featureSync "delta" exEnv exWorldResolved false).result
        = .ok (resolvedSuccessText "delta" 1 ["src/c.ts"] 4)
      ∧ exWorldResolved.conflictedAfterClaude = []
      ∧ exWorldResolved.fs0 "/proj/.worktrees/delta/CONFLICTS.md" = true
      ∧ fileExistsAfter exWorldResolved.fs0
          (featureSync "delta" exEnv exWorldResolved false).trace
          "/proj/.worktrees/delta/CONFLICTS.md" = true
      ∧ ((featureSync "delta" exEnv exWorldResolved false).trace.all
          fun op => !(isUnlinkOp op)) = true := by
  decide

/-- C7 counterexample: with zero new upstream commits and no divergence,
sync still issues the rebase invocation and returns the ordinary
synced-success result — there is no distinct up-to-date outcome and no
early exit. -/
theorem c7_counterexample :
    ((featureSync "delta" exEnv exWorldUpToDate false).trace.any
        fun op => isRebaseAttempt op) = true
      ∧ (featureSync "delta" exEnv exWorldUpToDate false).result
          = .ok (cleanSuccessText "delta" 0 0) := by
  decide

/-- C7 (amended): for every feature with no new upstream commits and no
local divergence, sync does not fail: it runs the same
fetch/checkout/pull/rebase sequence (the rebase being a no-op), reports the
generic synced-success text with 0 new commits and 0 commits ahead, and
leaves no rebase in progress; it does not return a distinct up-to-date
outcome or skip the rebase. -/
theorem c7_amended_up_to_date (n root : String) (env : SyncEnv) (w : SyncWorld)
    (hroot : truthyEnv env.projectRoot = some root)
    (hfs : w.fs0 (worktreePathOf root n) = true)
    (hrepo : w.isRepo = true) (hfetch : w.fetchErr = none) (hcm : w.checkoutMainErr = none)
    (hpull : w.pullErr = none) (hcf : w.checkoutFeatureErr = none)
    (hreb : w.rebaseErr = none)
    (hupc : w.newCommitCount = 0) (hahead : w.aheadAfterSuccess = 0) :
    (featureSync n env w false).result = .ok (cleanSuccessText n 0 0)
      ∧ (featureSync n env w false).rebaseInProgress = false
      ∧ (featureSync n env w false).trace
          = preTrace root (worktreePathOf root n) (branchNameOf n)
              ++ [.rebase (worktreePathOf root n) ["main"],
                  .statusQ (worktreePathOf root n)] := by
  unfold featureSync
  rw [hroot]
  simp only [hfs, hrepo, hfetch, hcm, hpull, hcf, hreb, hupc, hahead]
  exact ⟨rfl, rfl, rfl⟩

/-- C7 witness: the amended theorem at the concrete up-to-date run. -/
theorem c7_witness :
    (featureSync "delta" exEnv exWorldUpToDate false).result
      = .ok (cleanSuccessText "delta" 0 0) :=
  (c7_amended_up_to_date "delta" "/proj" exEnv exWorldUpToDate (by decide) (by decide)
    (by decide) (by decide) (by decide) (by decide) (by decide) (by decide)
    (by decide) (by decide)).1

/-- C8 counterexample: on a sync whose working tree has uncommitted
modifications at attempt start, no stash push or pop ever happens — the
modifications are neither stashed nor restored. -/
theorem c8_counterexample :
    exWorldDirty.dirtyAtStart = true
      ∧ ((featureSync "delta" exEnv exWorldDirty false).trace.all
          fun op => !(isStashOp op)) = true
      ∧ (featureSync "delta" exEnv exWorldDirty false).result
          = .ok (cleanSuccessText "delta" 1 3) := by
  decide

/-- C8 (amended): even when the working tree holds uncommitted
modifications at attempt start, sync never stashes: no stash push or pop
appears in the trace of any invocation, and consequently nothing is restored
after the rebase and no restore warning exists. -/
theorem c8_amended_no_stash (n : String) (env : SyncEnv) (w : SyncWorld) (i : Bool)
    (hdirty : w.dirtyAtStart = true) :
    ((featureSync n env w i).trace.all fun op => !(isStashOp op)) = true :=
  featureSync_no_stash n env w i

/-- C8 witness: the amended theorem at the concrete dirty-tree run. -/
theorem c8_witness :
    ((featureSync "delta" exEnv exWorldDirty false).trace.all
      fun op => !(isStashOp op)) = true :=
  c8_amended_no_stash "delta" exEnv exWorldDirty false (by decide)

/-- C9: rendering any conflict set (newline-free relative paths) with the
conflict report builder and re-parsing the resulting document for its path
list recovers exactly the original conflicted-path list — no path lost, no
path duplicated. -/
theorem c9_report_roundtrip (now : String) (files : List String) (hnow : '\n' ∉ now.data)
    (hf : ∀ f ∈ files, '\n' ∉ f.data) :
    parseConflictReportPaths (generateConflictReport now files) = files :=
  report_roundTrip now files hnow hf

/-- C9 witness: the round trip evaluated on a concrete two-path set. -/
theorem c9_witness :
    parseConflictReportPaths
        (generateConflictReport "2024-01-01T00:00:00.000Z" ["src/a.ts", "src/b.ts"])
      = ["src/a.ts", "src/b.ts"] :=
  c9_report_roundtrip "2024-01-01T00:00:00.000Z" ["src/a.ts", "src/b.ts"]
    (by decide) (by decide)

/-- C10 counterexample: under the path.join model the derivation is not
verbatim for separator-containing names — two distinct names collide after
slash collapsing, and a dot-dot name escapes the worktrees directory, so
its derived path is not the verbatim concatenation. -/
theorem c10_counterexample :
    ("a//b" : String) ≠ "a/b"
      ∧ worktreePathOf "/proj" "a//b" = worktreePathOf "/proj" "a/b"
      ∧ worktreePathOf "/proj" "../escape" = "/proj/escape"
      ∧ worktreePathOf "/proj" "../escape"
          ≠ "/proj" ++ "/.worktrees/" ++ "../escape" := by
  decide

/-- C10 (amended): sync applies no canonicalization of its own — the
branch name is the verbatim `feature/<name>` for every name, and the only
guard on any name is the existence check on the derived path; but the
worktree path goes through path.join, which normalizes, so for a
normalized absolute project root the path is the verbatim concatenation
`<root>/.worktrees/<name>` — and distinct names (e.g. case-differing
ones) give distinct paths — only for separator- and dot-free names. -/
theorem c10_name_derivation (root : String) (hr : normalizePath root = root)
    (habs : isPre ['/'] root.data = true) (hlast : lastIsSlash root.data = false)
    (hroot1 : root ≠ "/") :
    (∀ n : String, plainName n →
        worktreePathOf root n = root ++ "/.worktrees/" ++ n)
      ∧ (∀ n : String, branchNameOf n = "feature/" ++ n)
      ∧ (∀ n₁ n₂ : String, plainName n₁ → plainName n₂ → n₁ ≠ n₂ →
        worktreePathOf root n₁ ≠ worktreePathOf root n₂)
      ∧ (∀ (n : String) (env : SyncEnv) (w : SyncWorld) (i : Bool),
        truthyEnv env.projectRoot = some root →
        w.fs0 (worktreePathOf root n) = false →
        featureSync n env w i
          = ⟨.thrown (notFoundMsg n (worktreePathOf root n)), i, []⟩) := by
  refine ⟨fun n hn => worktreePathOf_plain root n hr habs hlast hroot1 hn,
    fun n => rfl, ?_, ?_⟩
  · intro n₁ n₂ h1 h2 hne heq
    rw [worktreePathOf_plain root n₁ hr habs hlast hroot1 h1,
      worktreePathOf_plain root n₂ hr habs hlast hroot1 h2] at heq
    apply hne
    apply stringEq_of_data
    have hd := congrArg String.data heq
    simp only [String.data_append, List.append_assoc] at hd
    exact List.append_cancel_left (List.append_cancel_left hd)
  · intro n env w i henv hfs
    unfold featureSync
    simp only [henv]
    rw [if_pos hfs]

/-- C10 witness: the theorem at concrete case-differing plain names. -/
theorem c10_witness :
    worktreePathOf "/proj" "Alpha" = "/proj/.worktrees/Alpha"
      ∧ worktreePathOf "/proj" "Alpha" ≠ worktreePathOf "/proj" "alpha" := by
  refine ⟨(c10_name_derivation "/proj" (by decide) (by decide) (by decide) (by decide)).1
    "Alpha" (by decide), ?_⟩
  exact (c10_name_derivation "/proj" (by decide) (by decide) (by decide)
    (by decide)).2.2.1 "Alpha" "alpha" (by decide) (by decide) (by decide)
